import Mathlib

/-!
Verification development for the mpool fixed-size memory-pool library
(mpool.c / mpool.h).

Shallow embedding choices:

* A machine address is modelled as a pair `(blob id, byte offset)`:
  the raw allocator is assumed to hand out non-overlapping regions, so a
  pointer into blob `b` at offset `i` is determined by `(b, i)`.  The pool
  assigns blob id `alloc_count` (its index in the `blobs` array) to each
  newly allocated blob.
* `struct _block` holds only its `addr` field besides the `next` link; the
  two singly linked lists (`block_list`, `unused_blocks`) are modelled as
  Lean lists of addresses, with the list head being the C list head.
* C `int32_t` fields are modelled as `Int` (no trace considered here comes
  near 2^31), `size_t` fields as `Nat`.
* The underlying allocator (`malloc`/`calloc`/`realloc`) is modelled as
  succeeding, except in `mpool_realloc`, where an explicit `AllocOracle`
  says which of the three allocation calls succeed, so that the
  `MPOOL_ERR_ALLOC` paths of `mpool_realloc` are represented.  Descriptor
  allocation in `_create_block` is modelled as succeeding.
* A `NULL` pointer argument or result is `Option.none`.
* Functions whose C body can crash (dereference `NULL`/uninitialised
  memory) or not terminate return `Option`, with `none` for the crash or
  divergence; `some` is a normal return.
* Mutex lock/unlock calls are modelled as succeeding (single-threaded
  executions), so the `MPOOL_ERR_MUTEX` paths never fire.
-/

/-- Error codes, from `enum mpool_error` in mpool.h.  The implementation
(mpool.c) returns the `MPOOL_EMPTY_LIST` / `MPOOL_FULL_LIST` constants for
the conditions the specification calls `EmptyPool` / `FullPool`; the
shipped mpool.h spells these enum members `MPOOL_EMPTY_POOL` /
`MPOOL_FULL_POOL` in the same positions. -/
inductive mpool_error where
  | MPOOL_SUCCESS
  | MPOOL_FAILURE
  | MPOOL_ERR_ALLOC
  | MPOOL_ERR_NULL_ARG
  | MPOOL_ERR_MUTEX
  | MPOOL_ERR_INVALID_REALLOC_SIZE
  | MPOOL_FULL_LIST
  | MPOOL_EMPTY_LIST
deriving DecidableEq, Repr

/-- An address into one of the pool's blobs: `(blob id, byte offset)`.
This is the `addr` field of `struct _block`. -/
abbrev Addr := Nat × Nat

/-- The pool state, from `struct mpool` in mpool.c.  The two descriptor
lists keep only the `addr` of each `struct _block` node; `blobs` stores
the ids of the blobs returned by the allocator model (the id of
`blobs[i]` is `i`), wrapped in `Option` because the field is a pointer
that `realloc` can turn into `NULL` on failure. -/
structure mpool where
  block_list : List Addr
  unused_blocks : List Addr
  block_list_size : Int
  unused_block_list_size : Int
  block_size : Nat
  capacity : Int
  blobs : Option (List Nat)
  blob_sizes : Option (List Nat)
  alloc_count : Nat
deriving DecidableEq, Repr

/-- C `_remove_block_list`: pop the head of a list.  Returns the error
code, the removed node (`none` when the list was empty and the out
parameter is left untouched), and the resulting list.  The `NULL`
argument checks cannot fire in this embedding (callers pass addresses of
locals). -/
def rem_block_list : List Addr → mpool_error × Option Addr × List Addr
  | [] => (.MPOOL_EMPTY_LIST, none, [])
  | b :: rest => (.MPOOL_SUCCESS, some b, rest)

/-- C `_insert_block_list`: push a node on the head of a list.  The
`NULL` argument checks cannot fire in this embedding. -/
def insert_block_list (block : Addr) (list : List Addr) : mpool_error × List Addr :=
  (.MPOOL_SUCCESS, block :: list)

/-- C `_add_to_unused_list`: push a node onto `unused_blocks` and bump the
counter on success.  Note the C function returns `MPOOL_SUCCESS`
unconditionally, not `err`. -/
def add_to_unused_list (new_block : Addr) (pool : mpool) : mpool_error × mpool :=
  let r := insert_block_list new_block pool.unused_blocks
  let pool1 : mpool := { pool with unused_blocks := r.2 }
  let pool2 : mpool :=
    if r.1 = .MPOOL_SUCCESS then
      { pool1 with unused_block_list_size := pool1.unused_block_list_size + 1 }
    else pool1
  (.MPOOL_SUCCESS, pool2)

/-- C `_remove_from_unused_list`: pop a node from `unused_blocks` and
decrement the counter on success.  Note the C function returns
`MPOOL_SUCCESS` unconditionally, discarding the `MPOOL_EMPTY_LIST` error
of `_remove_block_list`. -/
def remove_from_unused_list (pool : mpool) : mpool_error × Option Addr × mpool :=
  let r := rem_block_list pool.unused_blocks
  let pool1 : mpool := { pool with unused_blocks := r.2.2 }
  let pool2 : mpool :=
    if r.1 = .MPOOL_SUCCESS then
      { pool1 with unused_block_list_size := pool1.unused_block_list_size - 1 }
    else pool1
  (.MPOOL_SUCCESS, r.2.1, pool2)

/-- C `_create_block`: initialise a fresh descriptor holding `addr`.  The
descriptor `malloc` is modelled as succeeding and `addr` is never `NULL`
here (it points into an allocated blob), so the result is always
`MPOOL_SUCCESS` with the new node. -/
def create_block (addr : Addr) : mpool_error × Addr :=
  (.MPOOL_SUCCESS, addr)

/-- C `_add_block`: add a descriptor to `block_list` unless the list is
already at `capacity`, bumping the counter on success. -/
def add_block (new_block : Addr) (pool : mpool) : mpool_error × mpool :=
  if pool.block_list_size + 1 > pool.capacity then
    (.MPOOL_FULL_LIST, pool)
  else
    let r := insert_block_list new_block pool.block_list
    let pool1 : mpool := { pool with block_list := r.2 }
    if r.1 = .MPOOL_SUCCESS then
      (r.1, { pool1 with block_list_size := pool1.block_list_size + 1 })
    else
      (r.1, pool1)

/-- C `_remove_block`: pop a descriptor from `block_list`, decrementing
the counter on success; `MPOOL_EMPTY_LIST` when the list is empty (the
out parameter is then left untouched, hence `none`). -/
def remove_block (pool : mpool) : mpool_error × Option Addr × mpool :=
  if pool.block_list = [] then
    (.MPOOL_EMPTY_LIST, none, pool)
  else
    let r := rem_block_list pool.block_list
    let pool1 : mpool := { pool with block_list := r.2.2 }
    if r.1 = .MPOOL_SUCCESS then
      (r.1, r.2.1, { pool1 with block_list_size := pool1.block_list_size - 1 })
    else
      (r.1, r.2.1, pool1)

/-- Offsets visited by the C loop
`for (size_t i = 0; i < size; i += block_size)` when `block_size > 0`:
exactly `k * block_size` for `k < ceil(size / block_size)`.
(The `block_size = 0` stride, under which the loop would not terminate
for `size > 0`, is excluded by the caller `partition_blob`.) -/
def loop_offsets (size block_size : Nat) : List Nat :=
  (List.range ((size + block_size - 1) / block_size)).map (fun k => k * block_size)

/-- Body iteration of C `_partition_blob`: for each offset in order,
create a descriptor for `(base, offset)` and `_add_block` it, returning
the first error encountered. -/
def run_partition : List Nat → Nat → mpool → mpool_error × mpool
  | [], _, pool => (.MPOOL_SUCCESS, pool)
  | i :: rest, base, pool =>
    let r := create_block (base, i)
    if r.1 ≠ .MPOOL_SUCCESS then (r.1, pool)
    else
      let r2 := add_block r.2 pool
      if r2.1 ≠ .MPOOL_SUCCESS then (r2.1, r2.2)
      else run_partition rest base r2.2

/-- C `_partition_blob`: split `blobs[index]` into `block_size`-strided
descriptors appended to `block_list`.  `none` models undefined behaviour
(reading `blobs`/`blob_sizes` through `NULL` or out of bounds) and the
non-terminating loop that a zero `block_size` with a non-empty blob would
produce. -/
def partition_blob (pool : mpool) (index : Nat) : Option (mpool_error × mpool) :=
  match pool.blobs, pool.blob_sizes with
  | some bl, some sl =>
    match bl.get? index, sl.get? index with
    | some base, some size =>
      if pool.block_size = 0 ∧ 0 < size then none
      else some (run_partition (loop_offsets size pool.block_size) base pool)
    | _, _ => none
  | _, _ => none

/-- C `init_mpool`: zero-initialise the pool (`calloc`), set `block_size`
and `capacity`, allocate blob 0 of `block_size * capacity` bytes, record
its size, and partition it.  The `calloc`/`malloc` calls are modelled as
succeeding; the mutex initialisation is dropped.  The C function writes
the pool through the out parameter even when `_partition_blob` fails, so
the state is returned alongside the error in every case.  `capacity` is
assumed nonnegative for the `size_t` product. -/
def init_mpool (block_size : Nat) (capacity : Int) : Option (mpool_error × mpool) :=
  let pool0 : mpool :=
    { block_list := [], unused_blocks := [], block_list_size := 0,
      unused_block_list_size := 0, block_size := 0, capacity := 0,
      blobs := none, blob_sizes := none, alloc_count := 0 }
  let pool1 := { pool0 with block_size := block_size, capacity := capacity }
  let pool2 := { pool1 with alloc_count := pool1.alloc_count + 1 }
  let pool3 := { pool2 with blobs := some [0] }
  let pool4 := { pool3 with blob_sizes := some [block_size * capacity.toNat] }
  partition_blob pool4 (pool4.alloc_count - 1)

/-- C `mpool_alloc`: pop a descriptor from `block_list`, return its
address, and move the descriptor to `unused_blocks`.  On error the item
is `NULL` (`none`).  The `pool == NULL` check is not representable here
(the pool is passed by value); the outer `none` covers the (unreachable)
dereference of the uninitialised descriptor pointer. -/
def mpool_alloc (pool : mpool) : Option (Option Addr × mpool_error × mpool) :=
  let r := remove_block pool
  if r.1 ≠ .MPOOL_SUCCESS then some (none, r.1, r.2.2)
  else
    match r.2.1 with
    | none => none
    | some b =>
      let item := b
      let r2 := add_to_unused_list b r.2.2
      some (some item, r2.1, r2.2)

/-- C `mpool_dealloc`: pop a descriptor from `unused_blocks`, overwrite
its address with `item`, and `_add_block` it back.  Because
`_remove_from_unused_list` always reports success, the empty-recycle-list
case falls through to `b->addr = item` with `b == NULL`: the outer `none`
models that undefined behaviour. -/
def mpool_dealloc (item : Option Addr) (pool : mpool) : Option (mpool_error × mpool) :=
  match item with
  | none => some (.MPOOL_ERR_NULL_ARG, pool)
  | some it =>
    let r := remove_from_unused_list pool
    if r.1 ≠ .MPOOL_SUCCESS then some (r.1, r.2.2)
    else
      match r.2.1 with
      | none => none
      | some _b =>
        let r2 := add_block it r.2.2
        some (r2.1, r2.2)

/-- Success flags for the three allocator calls made by `mpool_realloc`,
in program order: the `realloc` of `blobs`, the `malloc` of the new blob,
and the `realloc` of `blob_sizes`. -/
structure AllocOracle where
  blobs_ok : Bool
  blob_ok : Bool
  sizes_ok : Bool
deriving DecidableEq, Repr

/-- The oracle under which every allocator call succeeds. -/
def allocOK : AllocOracle := ⟨true, true, true⟩

/-- C `mpool_realloc`: grow the pool to `new_capacity`.  Note the source
increments `alloc_count` and updates `capacity` before any allocation is
attempted; a failed allocation returns `MPOOL_ERR_ALLOC` with those
updates already in place (and the corresponding array pointer `NULL`ed by
the failed `realloc`, modelled by setting the field to `none`).  The slot
`blobs[index]` is written only by the blob `malloc`, hence the append
happens at that point. -/
def mpool_realloc (oracle : AllocOracle) (new_capacity : Int) (pool : mpool) :
    Option (mpool_error × mpool) :=
  if pool.capacity ≥ new_capacity then
    some (.MPOOL_ERR_INVALID_REALLOC_SIZE, pool)
  else
    let extra := new_capacity - pool.capacity
    let new_size := extra.toNat * pool.block_size
    let index := pool.alloc_count
    let pool1 := { pool with alloc_count := pool.alloc_count + 1 }
    let pool2 := { pool1 with capacity := new_capacity }
    if ¬ oracle.blobs_ok then some (.MPOOL_ERR_ALLOC, { pool2 with blobs := none })
    else
      if ¬ oracle.blob_ok then some (.MPOOL_ERR_ALLOC, pool2)
      else
        let pool3 := { pool2 with blobs := some (pool2.blobs.getD [] ++ [index]) }
        if ¬ oracle.sizes_ok then
          some (.MPOOL_ERR_ALLOC, { pool3 with blob_sizes := none })
        else
          let pool4 := { pool3 with blob_sizes := some (pool3.blob_sizes.getD [] ++ [new_size]) }
          partition_blob pool4 index

/-- C `mpool_capacity`: `-1` for a `NULL` pool, else the `capacity`
field. -/
def mpool_capacity (pool : Option mpool) : Int :=
  match pool with
  | none => -1
  | some p => p.capacity

/-- The pool state produced by a successful `init_mpool block_size
capacity` call with `block_size ≥ 1` and `capacity ≥ 0`: blob 0 of
`block_size * capacity` bytes partitioned into `capacity` descriptors
(offsets `0, block_size, ...`, pushed on the head of `block_list` in
order, hence the reverse). -/
def initState (bs : Nat) (cap : Int) : mpool :=
  { block_list := ((List.range cap.toNat).map (fun k => (((0:Nat), k * bs) : Addr))).reverse
    unused_blocks := []
    block_list_size := (cap.toNat : Int)
    unused_block_list_size := 0
    block_size := bs
    capacity := cap
    blobs := some [0]
    blob_sizes := some [bs * cap.toNat]
    alloc_count := 1 }

/-- The pool state after a successful `mpool_realloc` to capacity `c`
(all allocator calls succeeding): `alloc_count` bumped, the new blob and
its size appended, and `c - capacity` new descriptors pushed on the free
list. -/
def growState (p : mpool) (c : Int) : mpool :=
  { p with
    alloc_count := p.alloc_count + 1,
    capacity := c,
    blobs := some (p.blobs.getD [] ++ [p.alloc_count]),
    blob_sizes := some (p.blob_sizes.getD [] ++ [(c - p.capacity).toNat * p.block_size]),
    block_list := ((List.range (c - p.capacity).toNat).map
      (fun k => ((p.alloc_count, k * p.block_size) : Addr))).reverse ++ p.block_list,
    block_list_size := p.block_list_size + ((c - p.capacity).toNat : Int) }

/-- Run `n` calls of `mpool_alloc`, requiring every call to succeed with
a non-`NULL` item; `none` if any call fails. -/
def allocRun : Nat → mpool → Option mpool
  | 0, p => some p
  | n + 1, p =>
    match mpool_alloc p with
    | some (some _, .MPOOL_SUCCESS, q) => allocRun n q
    | _ => none

/-- Remove the first occurrence of an address from a list (used to track
the multiset of outstanding loans). -/
def eraseAddr : List Addr → Addr → List Addr
  | [], _ => []
  | x :: xs, a => if x = a then xs else x :: eraseAddr xs a

/-- A single-threaded client operation: one acquire, or one release of a
given address. -/
inductive MOp where
  | opAlloc : MOp
  | opDealloc : Addr → MOp
deriving DecidableEq, Repr

/-- Run a sequence of acquire/release operations under the loan
discipline, tracking the list of currently outstanding addresses.  Each
acquire must succeed; each release must name an address currently on
loan (and not yet released) and must succeed.  `none` if any operation
fails, crashes, or breaks the discipline. -/
def runOps : List MOp → mpool → List Addr → Option (mpool × List Addr)
  | [], p, outs => some (p, outs)
  | MOp.opAlloc :: rest, p, outs =>
    match mpool_alloc p with
    | some (some a, .MPOOL_SUCCESS, q) => runOps rest q (a :: outs)
    | _ => none
  | MOp.opDealloc a :: rest, p, outs =>
    if a ∈ outs then
      match mpool_dealloc (some a) p with
      | some (.MPOOL_SUCCESS, q) => runOps rest q (eraseAddr outs a)
      | _ => none
    else none

/-- Reachability invariant of a pool: positive block size, counters in
sync with the list lengths, free plus recycle descriptors equal to
`capacity`, and `blobs`/`blob_sizes` arrays of length `alloc_count`.  It
holds after `init_mpool` with `block_size ≥ 1` and is preserved by every
successful operation. -/
def PoolInv (p : mpool) : Prop :=
  1 ≤ p.block_size ∧
  p.block_list_size = (p.block_list.length : Int) ∧
  p.unused_block_list_size = (p.unused_blocks.length : Int) ∧
  (p.block_list.length : Int) + (p.unused_blocks.length : Int) = p.capacity ∧
  (p.blobs.getD []).length = p.alloc_count ∧
  (p.blob_sizes.getD []).length = p.alloc_count

instance (p : mpool) : Decidable (PoolInv p) := by
  unfold PoolInv
  infer_instance

/-- A public-interface operation: acquire, release of an address, or
grow to a given capacity (with all allocator calls succeeding). -/
inductive PoolOp where
  | opAlloc : PoolOp
  | opDealloc : Addr → PoolOp
  | opRealloc : Int → PoolOp
deriving DecidableEq, Repr

/-- Run a sequence of public operations, requiring each to succeed;
`none` if any fails or crashes. -/
def runPoolOps : List PoolOp → mpool → Option mpool
  | [], p => some p
  | PoolOp.opAlloc :: rest, p =>
    match mpool_alloc p with
    | some (some _, .MPOOL_SUCCESS, q) => runPoolOps rest q
    | _ => none
  | PoolOp.opDealloc a :: rest, p =>
    match mpool_dealloc (some a) p with
    | some (.MPOOL_SUCCESS, q) => runPoolOps rest q
    | _ => none
  | PoolOp.opRealloc c :: rest, p =>
    match mpool_realloc allocOK c p with
    | some (.MPOOL_SUCCESS, q) => runPoolOps rest q
    | _ => none

/-- Oracle under which the blob `malloc` inside `mpool_realloc` fails
(the two array `realloc`s succeed). -/
def growFailOracle : AllocOracle := ⟨true, false, true⟩

/-- The pool left behind by `mpool_realloc growFailOracle 2` on the pool
of `init_mpool 1 1`: `capacity` and `alloc_count` already updated even
though the grow failed. -/
def failedGrowPool : mpool :=
  { block_list := [((0:Nat), (0:Nat))], unused_blocks := [], block_list_size := 1,
    unused_block_list_size := 0, block_size := 1, capacity := 2,
    blobs := some [0], blob_sizes := some [1], alloc_count := 2 }

/-- The pool produced by `init_mpool 0 n` for `n ≥ 0`: reported capacity
`n` but no descriptors at all. -/
def zeroPool (n : Int) : mpool :=
  { block_list := [], unused_blocks := [], block_list_size := 0,
    unused_block_list_size := 0, block_size := 0, capacity := n,
    blobs := some [0], blob_sizes := some [0], alloc_count := 1 }

/-- The pool of `init_mpool 1 1` after one successful `mpool_alloc`: the
single descriptor moved to the recycle list. -/
def pool11_alloced : mpool :=
  { block_list := [], unused_blocks := [((0:Nat), (0:Nat))], block_list_size := 0,
    unused_block_list_size := 1, block_size := 1, capacity := 1,
    blobs := some [0], blob_sizes := some [1], alloc_count := 1 }

/-- `mpool_alloc` on an empty free list: `MPOOL_EMPTY_LIST`, `NULL` item,
pool unchanged. -/
theorem mpool_alloc_nil (p : mpool) (h : p.block_list = []) :
    mpool_alloc p = some (none, .MPOOL_EMPTY_LIST, p) := by
  simp [mpool_alloc, remove_block, h]

/-- `mpool_alloc` on a non-empty free list: returns the head address and
moves its descriptor to the head of the recycle list. -/
theorem mpool_alloc_cons (p : mpool) (a : Addr) (l : List Addr) (h : p.block_list = a :: l) :
    mpool_alloc p = some (some a, .MPOOL_SUCCESS,
      { p with block_list := l, block_list_size := p.block_list_size - 1,
               unused_blocks := a :: p.unused_blocks,
               unused_block_list_size := p.unused_block_list_size + 1 }) := by
  simp [mpool_alloc, remove_block, rem_block_list, add_to_unused_list, insert_block_list, h]

/-- `mpool_dealloc` on an empty recycle list dereferences the `NULL`
descriptor pointer: undefined behaviour, not an error return. -/
theorem mpool_dealloc_unused_nil (p : mpool) (a : Addr) (h : p.unused_blocks = []) :
    mpool_dealloc (some a) p = none := by
  simp [mpool_dealloc, remove_from_unused_list, rem_block_list, h]

/-- `mpool_dealloc` on a non-empty recycle list with room on the free
list: recycles the head descriptor, overwrites its address with the
released one, and pushes it on the free list. -/
theorem mpool_dealloc_cons (p : mpool) (a b : Addr) (rest : List Addr)
    (h : p.unused_blocks = b :: rest) (hg : ¬ p.block_list_size + 1 > p.capacity) :
    mpool_dealloc (some a) p = some (.MPOOL_SUCCESS,
      { p with unused_blocks := rest,
               unused_block_list_size := p.unused_block_list_size - 1,
               block_list := a :: p.block_list,
               block_list_size := p.block_list_size + 1 }) := by
  simp [mpool_dealloc, remove_from_unused_list, rem_block_list, add_block,
        insert_block_list, h, hg]

/-- `mpool_dealloc` when the free-list counter is already at capacity:
the recycled descriptor is popped but `_add_block` refuses it. -/
theorem mpool_dealloc_cons_full (p : mpool) (a b : Addr) (rest : List Addr)
    (h : p.unused_blocks = b :: rest) (hg : p.block_list_size + 1 > p.capacity) :
    mpool_dealloc (some a) p = some (.MPOOL_FULL_LIST,
      { p with unused_blocks := rest,
               unused_block_list_size := p.unused_block_list_size - 1 }) := by
  simp [mpool_dealloc, remove_from_unused_list, rem_block_list, add_block,
        insert_block_list, h, hg]

/-- Successful run of the partition body over a list of offsets: all the
descriptors are pushed, in order, on the head of the free list, provided
the capacity bound leaves room for all of them. -/
theorem run_partition_spec (base : Nat) : ∀ (offs : List Nat) (p : mpool),
    p.block_list_size + (offs.length : Int) ≤ p.capacity →
    run_partition offs base p = (.MPOOL_SUCCESS,
      { p with
        block_list := (offs.map (fun o => ((base, o) : Addr))).reverse ++ p.block_list,
        block_list_size := p.block_list_size + (offs.length : Int) }) := by
  intro offs
  induction offs with
  | nil =>
    intro p hle
    simp [run_partition]
  | cons o rest ih =>
    intro p hle
    have hg : ¬ p.block_list_size + 1 > p.capacity := by
      simp only [List.length_cons] at hle
      push_cast at hle ⊢
      omega
    rw [run_partition]
    simp only [create_block, add_block, insert_block_list, hg, ite_false, ite_true, ne_eq,
      not_true_eq_false, if_false, if_true, reduceIte]
    rw [ih]
    · simp only [Prod.mk.injEq, true_and]
      obtain ⟨bl, ub, bls, ubs, bs, cap, blobs, bsz, ac⟩ := p
      simp only [mpool.mk.injEq, List.map_cons, List.reverse_cons, List.append_assoc,
        List.cons_append, List.nil_append, List.length_cons]
      and_intros <;> first | rfl | (push_cast; ring) | trivial
    · simp only [List.length_cons] at hle
      push_cast at hle ⊢
      omega

/-- The partition body only touches the free list and its counter, and
only ever reports `MPOOL_SUCCESS` or `MPOOL_FULL_LIST`. -/
theorem run_partition_frame (base : Nat) : ∀ (offs : List Nat) (p : mpool) (e : mpool_error)
    (q : mpool), run_partition offs base p = (e, q) →
    q.capacity = p.capacity ∧ q.unused_blocks = p.unused_blocks ∧
    q.unused_block_list_size = p.unused_block_list_size ∧ q.block_size = p.block_size ∧
    q.blobs = p.blobs ∧ q.blob_sizes = p.blob_sizes ∧ q.alloc_count = p.alloc_count ∧
    (e = .MPOOL_SUCCESS ∨ e = .MPOOL_FULL_LIST) := by
  intro offs
  induction offs with
  | nil =>
    intro p e q h
    simp [run_partition] at h
    obtain ⟨rfl, rfl⟩ := h
    simp
  | cons o rest ih =>
    intro p e q h
    rw [run_partition] at h
    by_cases hg : p.block_list_size + 1 > p.capacity
    · simp only [create_block, add_block, insert_block_list, hg, ite_true, ite_false, ne_eq,
        not_true_eq_false, not_false_eq_true, if_true, if_false, reduceIte] at h
      injection h with h1 h2
      subst h1
      subst h2
      simp
    · simp only [create_block, add_block, insert_block_list, hg, ite_true, ite_false, ne_eq,
        not_true_eq_false, not_false_eq_true, if_true, if_false, reduceIte] at h
      have := ih _ _ _ h
      simpa using this

/-- For a positive stride, the loop over a blob of `bs * n` bytes visits
exactly the offsets `0, bs, ..., (n-1) * bs`. -/
theorem loop_offsets_mul (bs n : Nat) (hbs : 0 < bs) :
    loop_offsets (bs * n) bs = (List.range n).map (fun k => k * bs) := by
  unfold loop_offsets
  congr 1
  have h1 : bs * n + bs - 1 = bs * n + (bs - 1) := by omega
  rw [h1, Nat.mul_add_div hbs, Nat.div_eq_of_lt (by omega), Nat.add_zero]

/-- `init_mpool` with a positive block size and nonnegative capacity
succeeds and produces `initState`. -/
theorem init_mpool_spec (bs : Nat) (cap : Int) (hbs : 1 ≤ bs) (hcap : 0 ≤ cap) :
    init_mpool bs cap = some (.MPOOL_SUCCESS, initState bs cap) := by
  unfold init_mpool partition_blob
  simp only [List.get?]
  have hbs0 : 0 < bs := hbs
  have hguard : ¬ (bs = 0 ∧ 0 < bs * cap.toNat) := by omega
  simp only [hguard, if_false, reduceIte]
  rw [loop_offsets_mul bs cap.toNat hbs0]
  rw [run_partition_spec]
  · simp only [initState, List.map_map, Option.some.injEq, Prod.mk.injEq, true_and]
    congr 1
    · simp [Function.comp]
    · simp
  · simp only [List.length_map, List.length_range]
    omega

/-- Looking up the freshly appended entry of an array. -/
theorem get_at_length (l : List Nat) (a : Nat) : (l ++ [a]).get? l.length = some a := by
  induction l with
  | nil => rfl
  | cons x xs ih => simp only [List.cons_append, List.length_cons, List.get?]; exact ih

/-- `mpool_realloc` with every allocator call succeeding, on a pool whose
bookkeeping arrays are consistent and whose free-list counter leaves room
for the new descriptors: succeeds and produces `growState`. -/
theorem mpool_realloc_spec (p : mpool) (c : Int)
    (hbs : 1 ≤ p.block_size)
    (hlen : (p.blobs.getD []).length = p.alloc_count)
    (hslen : (p.blob_sizes.getD []).length = p.alloc_count)
    (hbound : p.block_list_size + (c - p.capacity) ≤ c)
    (hc : p.capacity < c) :
    mpool_realloc allocOK c p = some (.MPOOL_SUCCESS, growState p c) := by
  unfold mpool_realloc
  have hnc : ¬ p.capacity ≥ c := by omega
  simp only [hnc, if_false, allocOK, Bool.not_true, reduceIte, Bool.false_eq_true,
    not_false_eq_true, not_true_eq_false]
  unfold partition_blob
  simp only
  rw [show (p.blobs.getD [] ++ [p.alloc_count]).get? p.alloc_count
        = (p.blobs.getD [] ++ [p.alloc_count]).get? (p.blobs.getD []).length by rw [hlen],
      get_at_length,
      show (p.blob_sizes.getD [] ++ [(c - p.capacity).toNat * p.block_size]).get? p.alloc_count
        = (p.blob_sizes.getD [] ++ [(c - p.capacity).toNat * p.block_size]).get?
            (p.blob_sizes.getD []).length by rw [hslen],
      get_at_length]
  simp only
  have hguard : ¬ (p.block_size = 0 ∧ 0 < (c - p.capacity).toNat * p.block_size) := by
    omega
  simp only [hguard, if_false, reduceIte]
  rw [show (c - p.capacity).toNat * p.block_size = p.block_size * (c - p.capacity).toNat
      from Nat.mul_comm ..]
  rw [loop_offsets_mul p.block_size (c - p.capacity).toNat (by omega)]
  rw [run_partition_spec]
  · simp only [growState, List.map_map, Option.some.injEq, Prod.mk.injEq, true_and]
    obtain ⟨bl, ub, bls, ubs, bs, cap, blobs, bsz, ac⟩ := p
    simp only [mpool.mk.injEq, List.length_map, List.length_range]
    and_intros <;> first | rfl | (simp [Function.comp]; ring_nf) | trivial
  · simp only [List.length_map, List.length_range]
    omega

/-- Running `mpool_alloc` once per free-list entry succeeds, drains the
free list, and pushes every drained descriptor onto the recycle list. -/
theorem allocRun_spec : ∀ (l : List Addr) (p : mpool), p.block_list = l →
    allocRun l.length p = some
      { p with block_list := [],
               block_list_size := p.block_list_size - (l.length : Int),
               unused_blocks := l.reverse ++ p.unused_blocks,
               unused_block_list_size := p.unused_block_list_size + (l.length : Int) } := by
  intro l
  induction l with
  | nil =>
    intro p h
    simp only [List.length_nil, allocRun, Option.some.injEq]
    obtain ⟨bl, ub, bls, ubs, bs, cap, blobs, bsz, ac⟩ := p
    simp only at h
    subst h
    simp [mpool.mk.injEq]
  | cons a rest ih =>
    intro p h
    rw [List.length_cons, allocRun, mpool_alloc_cons p a rest h]
    show allocRun rest.length _ = _
    rw [ih _ (by simp)]
    simp only [Option.some.injEq]
    obtain ⟨bl, ub, bls, ubs, bs, cap, blobs, bsz, ac⟩ := p
    simp only [mpool.mk.injEq, List.reverse_cons, List.append_assoc, List.cons_append,
      List.nil_append, List.length_cons]
    and_intros <;> first | rfl | (push_cast; ring) | trivial

/-- Any pool can be drained: one successful acquire per free-list entry,
after which the next acquire fails with `MPOOL_EMPTY_LIST` and a `NULL`
item. -/
theorem allocRun_exhaust (p : mpool) :
    ∃ q, allocRun p.block_list.length p = some q ∧
      mpool_alloc q = some (none, .MPOOL_EMPTY_LIST, q) := by
  refine ⟨_, allocRun_spec p.block_list p rfl, ?_⟩
  exact mpool_alloc_nil _ rfl

/-- Removing one occurrence of a present address is a permutation with a
cons. -/
theorem perm_cons_eraseAddr (a : Addr) : ∀ (l : List Addr), a ∈ l →
    l.Perm (a :: eraseAddr l a) := by
  intro l
  induction l with
  | nil => intro h; cases h
  | cons x xs ih =>
    intro h
    by_cases hx : x = a
    · subst hx
      simp [eraseAddr]
    · have hmem : a ∈ xs := by
        cases h with
        | head => exact absurd rfl hx
        | tail _ h2 => exact h2
      have h1 : (x :: xs).Perm (x :: (a :: eraseAddr xs a)) := (ih hmem).cons x
      have h2 : (x :: (a :: eraseAddr xs a)).Perm (a :: (x :: eraseAddr xs a)) :=
        List.Perm.swap a x _
      have h3 := h1.trans h2
      simpa [eraseAddr, hx] using h3

/-- Core invariant behind claim C1: along any disciplined run, the free
list together with the outstanding addresses stays duplicate-free. -/
theorem runOps_nodup : ∀ (ops : List MOp) (p : mpool) (outs : List Addr),
    (p.block_list ++ outs).Nodup →
    ∀ (q : mpool) (fin : List Addr), runOps ops p outs = some (q, fin) →
    (q.block_list ++ fin).Nodup := by
  intro ops
  induction ops with
  | nil =>
    intro p outs h q fin hrun
    simp only [runOps, Option.some.injEq, Prod.mk.injEq] at hrun
    obtain ⟨rfl, rfl⟩ := hrun
    exact h
  | cons op rest ih =>
    intro p outs h q fin hrun
    cases op with
    | opAlloc =>
      cases hbl : p.block_list with
      | nil =>
        rw [runOps, mpool_alloc_nil p hbl] at hrun
        simp at hrun
      | cons a l =>
        rw [runOps, mpool_alloc_cons p a l hbl] at hrun
        refine ih _ _ ?_ _ _ hrun
        rw [hbl] at h
        exact List.perm_middle.symm.nodup h
    | opDealloc a =>
      rw [runOps] at hrun
      by_cases ha : a ∈ outs
      · simp only [ha, if_true, reduceIte] at hrun
        cases hu : p.unused_blocks with
        | nil =>
          rw [mpool_dealloc_unused_nil p a hu] at hrun
          simp at hrun
        | cons b ul =>
          by_cases hg : p.block_list_size + 1 > p.capacity
          · rw [mpool_dealloc_cons_full p a b ul hu hg] at hrun
            simp at hrun
          · rw [mpool_dealloc_cons p a b ul hu hg] at hrun
            refine ih _ _ ?_ _ _ hrun
            have h1 : outs.Perm (a :: eraseAddr outs a) := perm_cons_eraseAddr a outs ha
            have h2 : (p.block_list ++ outs).Perm
                (a :: (p.block_list ++ eraseAddr outs a)) :=
              (h1.append_left p.block_list).trans List.perm_middle
            exact h2.nodup h
      · simp [ha] at hrun

/-- `initState` satisfies the reachability invariant. -/
theorem PoolInv_initState (bs : Nat) (cap : Int) (hbs : 1 ≤ bs) (hcap : 0 ≤ cap) :
    PoolInv (initState bs cap) := by
  simp only [PoolInv, initState, List.length_reverse, List.length_map, List.length_range,
    List.length_cons, List.length_nil]
  and_intros <;> first | omega | simp

/-- A successful acquire preserves the reachability invariant. -/
theorem PoolInv_alloc (p : mpool) (it : Option Addr) (q : mpool) (hinv : PoolInv p)
    (h : mpool_alloc p = some (it, .MPOOL_SUCCESS, q)) : PoolInv q := by
  cases hbl : p.block_list with
  | nil =>
    rw [mpool_alloc_nil p hbl] at h
    simp at h
  | cons a l =>
    rw [mpool_alloc_cons p a l hbl] at h
    simp only [Option.some.injEq, Prod.mk.injEq] at h
    obtain ⟨-, -, hq⟩ := h
    subst hq
    obtain ⟨h1, h2, h3, h4, h5, h6⟩ := hinv
    rw [hbl] at h2 h4
    exact ⟨h1,
      by simp only [List.length_cons] at *; push_cast at *; omega,
      by simp only [List.length_cons] at *; push_cast at *; omega,
      by simp only [List.length_cons] at *; push_cast at *; omega, h5, h6⟩

/-- A successful release preserves the reachability invariant. -/
theorem PoolInv_dealloc (p : mpool) (a : Addr) (q : mpool) (hinv : PoolInv p)
    (h : mpool_dealloc (some a) p = some (.MPOOL_SUCCESS, q)) : PoolInv q := by
  cases hu : p.unused_blocks with
  | nil =>
    rw [mpool_dealloc_unused_nil p a hu] at h
    simp at h
  | cons b ul =>
    by_cases hg : p.block_list_size + 1 > p.capacity
    · rw [mpool_dealloc_cons_full p a b ul hu hg] at h
      simp at h
    · rw [mpool_dealloc_cons p a b ul hu hg] at h
      simp only [Option.some.injEq, Prod.mk.injEq] at h
      obtain ⟨-, hq⟩ := h
      subst hq
      obtain ⟨h1, h2, h3, h4, h5, h6⟩ := hinv
      rw [hu] at h3 h4
      exact ⟨h1,
        by simp only [List.length_cons] at *; push_cast at *; omega,
        by simp only [List.length_cons] at *; push_cast at *; omega,
        by simp only [List.length_cons] at *; push_cast at *; omega, h5, h6⟩

/-- A successful grow (all allocator calls succeeding) preserves the
reachability invariant. -/
theorem PoolInv_realloc (p : mpool) (c : Int) (q : mpool) (hinv : PoolInv p)
    (h : mpool_realloc allocOK c p = some (.MPOOL_SUCCESS, q)) : PoolInv q := by
  obtain ⟨h1, h2, h3, h4, h5, h6⟩ := hinv
  by_cases hc : p.capacity < c
  · rw [mpool_realloc_spec p c h1 h5 h6 (by omega) hc] at h
    simp only [Option.some.injEq, Prod.mk.injEq, true_and] at h
    subst h
    simp only [PoolInv, growState, List.length_append, List.length_reverse,
      List.length_map, List.length_range, Option.getD_some]
    refine ⟨h1, by push_cast; omega, h3, by push_cast; omega, by simp [h5], by simp [h6]⟩
  · unfold mpool_realloc at h
    rw [if_pos (by omega)] at h
    simp at h

/-- The reachability invariant holds along any run of successful public
operations. -/
theorem runPoolOps_inv : ∀ (ops : List PoolOp) (p : mpool), PoolInv p →
    ∀ (q : mpool), runPoolOps ops p = some q → PoolInv q := by
  intro ops
  induction ops with
  | nil =>
    intro p hinv q hrun
    simp only [runPoolOps, Option.some.injEq] at hrun
    subst hrun
    exact hinv
  | cons op rest ih =>
    intro p hinv q hrun
    cases op with
    | opAlloc =>
      rw [runPoolOps] at hrun
      cases halloc : mpool_alloc p with
      | none => rw [halloc] at hrun; simp at hrun
      | some r =>
        obtain ⟨it, e, p1⟩ := r
        rw [halloc] at hrun
        cases it with
        | none => simp at hrun
        | some a =>
          cases e with
          | MPOOL_SUCCESS => exact ih p1 (PoolInv_alloc p _ p1 hinv halloc) q hrun
          | MPOOL_FAILURE => simp at hrun
          | MPOOL_ERR_ALLOC => simp at hrun
          | MPOOL_ERR_NULL_ARG => simp at hrun
          | MPOOL_ERR_MUTEX => simp at hrun
          | MPOOL_ERR_INVALID_REALLOC_SIZE => simp at hrun
          | MPOOL_FULL_LIST => simp at hrun
          | MPOOL_EMPTY_LIST => simp at hrun
    | opDealloc a =>
      rw [runPoolOps] at hrun
      cases hde : mpool_dealloc (some a) p with
      | none => rw [hde] at hrun; simp at hrun
      | some r =>
        obtain ⟨e, p1⟩ := r
        rw [hde] at hrun
        cases e with
        | MPOOL_SUCCESS => exact ih p1 (PoolInv_dealloc p a p1 hinv hde) q hrun
        | MPOOL_FAILURE => simp at hrun
        | MPOOL_ERR_ALLOC => simp at hrun
        | MPOOL_ERR_NULL_ARG => simp at hrun
        | MPOOL_ERR_MUTEX => simp at hrun
        | MPOOL_ERR_INVALID_REALLOC_SIZE => simp at hrun
        | MPOOL_FULL_LIST => simp at hrun
        | MPOOL_EMPTY_LIST => simp at hrun
    | opRealloc c =>
      rw [runPoolOps] at hrun
      cases hre : mpool_realloc allocOK c p with
      | none => rw [hre] at hrun; simp at hrun
      | some r =>
        obtain ⟨e, p1⟩ := r
        rw [hre] at hrun
        cases e with
        | MPOOL_SUCCESS => exact ih p1 (PoolInv_realloc p c p1 hinv hre) q hrun
        | MPOOL_FAILURE => simp at hrun
        | MPOOL_ERR_ALLOC => simp at hrun
        | MPOOL_ERR_NULL_ARG => simp at hrun
        | MPOOL_ERR_MUTEX => simp at hrun
        | MPOOL_ERR_INVALID_REALLOC_SIZE => simp at hrun
        | MPOOL_FULL_LIST => simp at hrun
        | MPOOL_EMPTY_LIST => simp at hrun

/-- `_partition_blob` leaves `capacity` and `alloc_count` untouched and
never reports `MPOOL_ERR_ALLOC` in this model. -/
theorem partition_blob_frame (pool : mpool) (idx : Nat) (e : mpool_error) (q : mpool)
    (h : partition_blob pool idx = some (e, q)) :
    q.capacity = pool.capacity ∧ q.alloc_count = pool.alloc_count ∧
    (e = .MPOOL_SUCCESS ∨ e = .MPOOL_FULL_LIST) := by
  unfold partition_blob at h
  cases hb : pool.blobs with
  | none => rw [hb] at h; simp at h
  | some bl =>
    cases hs : pool.blob_sizes with
    | none => rw [hb, hs] at h; simp at h
    | some sl =>
      rw [hb, hs] at h
      simp only at h
      cases hg : bl.get? idx with
      | none => rw [hg] at h; simp at h
      | some base =>
        cases hg2 : sl.get? idx with
        | none => rw [hg, hg2] at h; simp at h
        | some size =>
          rw [hg, hg2] at h
          simp only at h
          by_cases hz : pool.block_size = 0 ∧ 0 < size
          · rw [if_pos hz] at h; simp at h
          · rw [if_neg hz] at h
            rw [Option.some.injEq] at h
            have hf := run_partition_frame base (loop_offsets size pool.block_size) pool e q h
            exact ⟨hf.1, hf.2.2.2.2.2.2.1, hf.2.2.2.2.2.2.2⟩

/-- Outcome analysis of `mpool_realloc`: either the size check rejects
the call and the pool is returned unchanged, or the call got past the
check and `capacity`/`alloc_count` have been updated no matter whether
the grow subsequently succeeded or failed. -/
theorem mpool_realloc_cases (o : AllocOracle) (c : Int) (p : mpool) (e : mpool_error)
    (q : mpool) (h : mpool_realloc o c p = some (e, q)) :
    (e = .MPOOL_ERR_INVALID_REALLOC_SIZE ∧ q = p) ∨
    (p.capacity < c ∧ q.capacity = c ∧ q.alloc_count = p.alloc_count + 1) := by
  unfold mpool_realloc at h
  by_cases hc : p.capacity ≥ c
  · rw [if_pos hc] at h
    simp only [Option.some.injEq, Prod.mk.injEq] at h
    exact Or.inl ⟨h.1.symm, h.2.symm⟩
  · rw [if_neg hc] at h
    right
    refine ⟨by omega, ?_⟩
    obtain ⟨b1, b2, b3⟩ := o
    cases b1 with
    | false =>
      simp only [Bool.false_eq_true, not_false_eq_true, if_true, Option.some.injEq,
        Prod.mk.injEq] at h
      obtain ⟨-, hq⟩ := h
      subst hq
      exact ⟨rfl, rfl⟩
    | true =>
      cases b2 with
      | false =>
        simp only [Bool.false_eq_true, not_false_eq_true, not_true_eq_false, if_true,
          if_false, Option.some.injEq, Prod.mk.injEq] at h
        obtain ⟨-, hq⟩ := h
        subst hq
        exact ⟨rfl, rfl⟩
      | true =>
        cases b3 with
        | false =>
          simp only [Bool.false_eq_true, not_false_eq_true, not_true_eq_false, if_true,
            if_false, Option.some.injEq, Prod.mk.injEq] at h
          obtain ⟨-, hq⟩ := h
          subst hq
          exact ⟨rfl, rfl⟩
        | true =>
          simp only [not_true_eq_false, if_false] at h
          have hf := partition_blob_frame _ _ _ _ h
          exact ⟨hf.1, hf.2.1⟩

/-- Claim C1: for every single-threaded sequence of successful acquire
(`mpool_alloc`) and release (`mpool_dealloc`) operations on a pool
initialised with `block_size ≥ 1` and `capacity ≥ 1`, where each release
passes an address currently on loan and not yet released, the set of
currently-outstanding addresses is pairwise distinct: no two
concurrently-outstanding acquires ever return the same address. -/
theorem C1_outstanding_addresses_distinct (bs : Nat) (cap : Int) (ops : List MOp)
    (hbs : 1 ≤ bs) (hcap : 1 ≤ cap)
    {p0 : mpool} (hinit : init_mpool bs cap = some (.MPOOL_SUCCESS, p0))
    {q : mpool} {outs : List Addr} (hrun : runOps ops p0 [] = some (q, outs)) :
    outs.Nodup := by
  rw [init_mpool_spec bs cap hbs (by omega)] at hinit
  simp only [Option.some.injEq, Prod.mk.injEq, true_and] at hinit
  subst hinit
  have hnodup : ((initState bs cap).block_list ++ ([] : List Addr)).Nodup := by
    simp only [initState, List.append_nil]
    rw [List.nodup_reverse]
    refine List.Nodup.map ?_ (List.nodup_range _)
    intro k1 k2 hk
    simp only [Prod.mk.injEq, true_and] at hk
    exact Nat.eq_of_mul_eq_mul_right hbs hk
  exact ((runOps_nodup ops (initState bs cap) [] hnodup q outs hrun)).of_append_right

/-- Witness for C1 at `block_size = 1`, `capacity = 2`, two acquires. -/
theorem C1_witness :
    (1:Nat) ≤ 1 ∧ (1:Int) ≤ 2 ∧
    ([(((0:Nat), (0:Nat)) : Addr), ((0:Nat), (1:Nat))] : List Addr).Nodup :=
  ⟨le_rfl, by decide, C1_outstanding_addresses_distinct 1 2 [MOp.opAlloc, MOp.opAlloc]
    le_rfl (by decide) rfl rfl⟩

/-- Claim C2: for a pool initialised with `block_size ≥ 1` and
`capacity = n ≥ 1`, after exactly `n` consecutive successful acquires
with no intervening release, the next acquire fails with the
`MPOOL_EMPTY_LIST` (EmptyPool) error and a `NULL` item; acquire never
grows the pool implicitly. -/
theorem C2_acquire_after_exhaustion_fails (bs n : Nat) (hbs : 1 ≤ bs) (hn : 1 ≤ n) :
    ∃ p0 p, init_mpool bs (n : Int) = some (.MPOOL_SUCCESS, p0) ∧
      allocRun n p0 = some p ∧
      mpool_alloc p = some (none, .MPOOL_EMPTY_LIST, p) := by
  refine ⟨initState bs (n : Int), ?_⟩
  have hlen : (initState bs (n : Int)).block_list.length = n := by
    simp only [initState, List.length_reverse, List.length_map, List.length_range]
    omega
  obtain ⟨q, hq1, hq2⟩ := allocRun_exhaust (initState bs (n : Int))
  rw [hlen] at hq1
  exact ⟨q, init_mpool_spec bs (n : Int) hbs (by omega), hq1, hq2⟩

/-- Witness for C2 at `block_size = 1`, `capacity = 1`. -/
theorem C2_witness :
    (1:Nat) ≤ 1 ∧ (1:Nat) ≤ 1 ∧
    ∃ p0 p, init_mpool 1 ((1:Nat) : Int) = some (.MPOOL_SUCCESS, p0) ∧
      allocRun 1 p0 = some p ∧
      mpool_alloc p = some (none, .MPOOL_EMPTY_LIST, p) :=
  ⟨le_rfl, le_rfl, C2_acquire_after_exhaustion_fails 1 1 le_rfl le_rfl⟩

/-- Claim C3 (code bug): on a pool whose recycle list is empty — here the
pool fresh out of `init_mpool 1 1` — `mpool_dealloc` does not return the
FullPool error with the pool unchanged; `_remove_from_unused_list`
discards the `MPOOL_EMPTY_LIST` error and reports success, after which
`mpool_dealloc` dereferences the `NULL` descriptor pointer (`b->addr =
item`): undefined behaviour, modelled by `none`. -/
theorem C3_release_on_empty_recycle_crashes :
    init_mpool 1 1 = some (.MPOOL_SUCCESS, initState 1 1) ∧
    (initState 1 1).unused_blocks = [] ∧
    mpool_dealloc (some ((0:Nat), (0:Nat))) (initState 1 1) = none :=
  ⟨rfl, rfl, rfl⟩

/-- Claim C4: for every pool satisfying the reachability invariant (in
particular every pool produced by `init_mpool` with `block_size ≥ 1` and
mutated by successful operations) and every `c` greater than the current
capacity, growing succeeds, the reported capacity becomes exactly `c`,
and exactly `c - capacity` additional successful acquires become possible
before the next EmptyPool failure, relative to the number possible before
the grow. -/
theorem C4_grow_adds_exact_capacity (p : mpool) (c : Int)
    (hinv : PoolInv p) (hc : p.capacity < c) :
    ∃ pg, mpool_realloc allocOK c p = some (.MPOOL_SUCCESS, pg) ∧
      mpool_capacity (some pg) = c ∧
      (pg.block_list.length : Int) = (p.block_list.length : Int) + (c - p.capacity) ∧
      (∃ q, allocRun p.block_list.length p = some q ∧
        mpool_alloc q = some (none, .MPOOL_EMPTY_LIST, q)) ∧
      (∃ q, allocRun pg.block_list.length pg = some q ∧
        mpool_alloc q = some (none, .MPOOL_EMPTY_LIST, q)) := by
  obtain ⟨h1, h2, h3, h4, h5, h6⟩ := hinv
  refine ⟨growState p c, mpool_realloc_spec p c h1 h5 h6 (by omega) hc, rfl, ?_,
    allocRun_exhaust p, allocRun_exhaust (growState p c)⟩
  simp only [growState, List.length_append, List.length_reverse, List.length_map,
    List.length_range]
  push_cast
  omega

/-- Witness for C4: growing the pool of `init_mpool 1 1` to capacity 2. -/
theorem C4_witness :
    PoolInv (initState 1 1) ∧ (initState 1 1).capacity < 2 ∧
    ∃ pg, mpool_realloc allocOK 2 (initState 1 1) = some (.MPOOL_SUCCESS, pg) ∧
      mpool_capacity (some pg) = 2 ∧
      (pg.block_list.length : Int)
        = ((initState 1 1).block_list.length : Int) + (2 - (initState 1 1).capacity) ∧
      (∃ q, allocRun (initState 1 1).block_list.length (initState 1 1) = some q ∧
        mpool_alloc q = some (none, .MPOOL_EMPTY_LIST, q)) ∧
      (∃ q, allocRun pg.block_list.length pg = some q ∧
        mpool_alloc q = some (none, .MPOOL_EMPTY_LIST, q)) :=
  ⟨by decide, by decide, C4_grow_adds_exact_capacity (initState 1 1) 2 (by decide) (by decide)⟩

/-- Claim C5: for every pool and every `new_capacity` at most the current
capacity, `mpool_realloc` fails with `MPOOL_ERR_INVALID_REALLOC_SIZE`
(InvalidGrowSize) and returns with the whole pool state unchanged. -/
theorem C5_invalid_grow_size_rejected (p : mpool) (c : Int) (o : AllocOracle)
    (h : c ≤ p.capacity) :
    mpool_realloc o c p = some (.MPOOL_ERR_INVALID_REALLOC_SIZE, p) := by
  unfold mpool_realloc
  rw [if_pos (by omega)]

/-- Witness for C5: shrinking the pool of `init_mpool 1 1` to capacity 1. -/
theorem C5_witness :
    (1:Int) ≤ (initState 1 1).capacity ∧
    mpool_realloc allocOK 1 (initState 1 1)
      = some (.MPOOL_ERR_INVALID_REALLOC_SIZE, initState 1 1) :=
  ⟨by decide, C5_invalid_grow_size_rejected (initState 1 1) 1 allocOK (by decide)⟩

/-- Counterexample to claim C6: on the pool of `init_mpool 1 1`, a grow
to capacity 2 whose blob `malloc` fails returns `MPOOL_ERR_ALLOC` with
`capacity` already set to 2 (and `alloc_count` already incremented): the
failed grow is not rolled back to the pre-call state. -/
theorem C6_counterexample :
    mpool_realloc growFailOracle 2 (initState 1 1)
      = some (.MPOOL_ERR_ALLOC, failedGrowPool) ∧
    failedGrowPool.capacity = 2 ∧ failedGrowPool.alloc_count = 2 ∧
    (initState 1 1).capacity = 1 ∧ (initState 1 1).alloc_count = 1 :=
  ⟨rfl, rfl, rfl, rfl, rfl⟩

/-- Claim C6 as amended: whenever `mpool_realloc` fails with
`MPOOL_ERR_ALLOC` (AllocationFailure), the pool's `capacity` has already
been set to the requested new capacity and `alloc_count` has already been
incremented — the failed grow is not atomic and does not revert. -/
theorem C6_failed_grow_not_rolled_back (o : AllocOracle) (c : Int) (p q : mpool)
    (h : mpool_realloc o c p = some (.MPOOL_ERR_ALLOC, q)) :
    q.capacity = c ∧ q.alloc_count = p.alloc_count + 1 := by
  rcases mpool_realloc_cases o c p _ q h with ⟨he, -⟩ | ⟨-, h2, h3⟩
  · cases he
  · exact ⟨h2, h3⟩

/-- Witness for the amended C6 at the counterexample input. -/
theorem C6_amended_witness :
    failedGrowPool.capacity = 2 ∧
    failedGrowPool.alloc_count = (initState 1 1).alloc_count + 1 :=
  C6_failed_grow_not_rolled_back growFailOracle 2 (initState 1 1) failedGrowPool rfl

/-- Counterexample to claim C7 as stated: `init_mpool 0 1` is a
successfully completed `init`, yet it leaves zero live descriptors while
reporting capacity 1. -/
theorem C7_counterexample :
    init_mpool 0 1 = some (.MPOOL_SUCCESS, zeroPool 1) ∧
    (zeroPool 1).capacity = 1 ∧
    (zeroPool 1).block_list.length + (zeroPool 1).unused_blocks.length = 0 :=
  ⟨rfl, rfl, rfl⟩

/-- Claim C7 as amended: for every pool initialised with
`block_size ≥ 1` and `capacity ≥ 1`, after `init` and every sequence of
successful acquire/release/grow operations, the number of live
descriptors — those on the free list plus those on the recycle list —
equals the pool's capacity.  (Descriptors are moved between the two
lists by acquire/release and created only by partitioning a new blob, as
the proof's invariant preservation shows.) -/
theorem C7_descriptor_count_equals_capacity (bs : Nat) (cap : Int) (ops : List PoolOp)
    (hbs : 1 ≤ bs) (hcap : 1 ≤ cap)
    {p0 : mpool} (hinit : init_mpool bs cap = some (.MPOOL_SUCCESS, p0))
    {q : mpool} (hrun : runPoolOps ops p0 = some q) :
    (q.block_list.length : Int) + (q.unused_blocks.length : Int) = q.capacity := by
  rw [init_mpool_spec bs cap hbs (by omega)] at hinit
  simp only [Option.some.injEq, Prod.mk.injEq, true_and] at hinit
  subst hinit
  exact (runPoolOps_inv ops _ (PoolInv_initState bs cap hbs (by omega)) q hrun).2.2.2.1

/-- Witness for the amended C7: `init_mpool 1 1` followed by one
acquire. -/
theorem C7_witness :
    (1:Nat) ≤ 1 ∧ (1:Int) ≤ 1 ∧
    ((pool11_alloced.block_list.length : Int) + (pool11_alloced.unused_blocks.length : Int)
      = pool11_alloced.capacity) :=
  ⟨le_rfl, le_rfl,
    C7_descriptor_count_equals_capacity 1 1 [PoolOp.opAlloc] le_rfl le_rfl rfl rfl⟩

/-- Claim C8: the capacity is monotonically non-decreasing across every
operation of the public interface — acquire, release, grow (under any
allocator oracle), and the capacity query — whether it succeeds or
fails. -/
theorem C8_capacity_monotone (p : mpool) :
    (∀ it e q, mpool_alloc p = some (it, e, q) → p.capacity ≤ q.capacity) ∧
    (∀ item e q, mpool_dealloc item p = some (e, q) → p.capacity ≤ q.capacity) ∧
    (∀ o c e q, mpool_realloc o c p = some (e, q) → p.capacity ≤ q.capacity) ∧
    mpool_capacity (some p) = p.capacity := by
  refine ⟨?_, ?_, ?_, rfl⟩
  · intro it e q h
    cases hbl : p.block_list with
    | nil =>
      rw [mpool_alloc_nil p hbl] at h
      simp only [Option.some.injEq, Prod.mk.injEq] at h
      obtain ⟨-, -, hq⟩ := h
      subst hq
      exact le_rfl
    | cons a l =>
      rw [mpool_alloc_cons p a l hbl] at h
      simp only [Option.some.injEq, Prod.mk.injEq] at h
      obtain ⟨-, -, hq⟩ := h
      subst hq
      exact le_rfl
  · intro item e q h
    cases item with
    | none =>
      simp only [mpool_dealloc, Option.some.injEq, Prod.mk.injEq] at h
      obtain ⟨-, hq⟩ := h
      subst hq
      exact le_rfl
    | some a =>
      cases hu : p.unused_blocks with
      | nil =>
        rw [mpool_dealloc_unused_nil p a hu] at h
        simp at h
      | cons b ul =>
        by_cases hg : p.block_list_size + 1 > p.capacity
        · rw [mpool_dealloc_cons_full p a b ul hu hg] at h
          simp only [Option.some.injEq, Prod.mk.injEq] at h
          obtain ⟨-, hq⟩ := h
          subst hq
          exact le_rfl
        · rw [mpool_dealloc_cons p a b ul hu hg] at h
          simp only [Option.some.injEq, Prod.mk.injEq] at h
          obtain ⟨-, hq⟩ := h
          subst hq
          exact le_rfl
  · intro o c e q h
    rcases mpool_realloc_cases o c p e q h with ⟨-, hq⟩ | ⟨hlt, hcap2, -⟩
    · subst hq
      exact le_rfl
    · rw [hcap2]
      omega

/-- Witness for C8: one acquire on the pool of `init_mpool 1 1`. -/
theorem C8_witness : (initState 1 1).capacity ≤ pool11_alloced.capacity :=
  (C8_capacity_monotone (initState 1 1)).1 (some ((0:Nat), (0:Nat))) .MPOOL_SUCCESS
    pool11_alloced rfl

/-- Claim C9: the lists behave as LIFO stacks — immediately after a
successful release of address `a`, the next acquire, with no intervening
operation, succeeds and returns exactly `a`. -/
theorem C9_release_then_acquire_roundtrip (p : mpool) (a : Addr) (p2 : mpool)
    (h : mpool_dealloc (some a) p = some (.MPOOL_SUCCESS, p2)) :
    ∃ p3, mpool_alloc p2 = some (some a, .MPOOL_SUCCESS, p3) := by
  cases hu : p.unused_blocks with
  | nil =>
    rw [mpool_dealloc_unused_nil p a hu] at h
    simp at h
  | cons b ul =>
    by_cases hg : p.block_list_size + 1 > p.capacity
    · rw [mpool_dealloc_cons_full p a b ul hu hg] at h
      simp at h
    · rw [mpool_dealloc_cons p a b ul hu hg] at h
      simp only [Option.some.injEq, Prod.mk.injEq, true_and] at h
      subst h
      exact ⟨_, mpool_alloc_cons _ a p.block_list rfl⟩

/-- Witness for C9: release `(0,0)` into the pool whose only descriptor
is on loan, then re-acquire it. -/
theorem C9_witness :
    mpool_dealloc (some ((0:Nat), (0:Nat))) pool11_alloced
      = some (.MPOOL_SUCCESS, initState 1 1) ∧
    ∃ p3, mpool_alloc (initState 1 1)
      = some (some ((0:Nat), (0:Nat)), .MPOOL_SUCCESS, p3) :=
  ⟨rfl, C9_release_then_acquire_roundtrip pool11_alloced ((0:Nat), (0:Nat))
    (initState 1 1) rfl⟩

/-- Claim C10: for every capacity `n ≥ 1`, `init_mpool` called with
`block_size = 0` returns success and the capacity query reports `n`, yet
the free list is left empty (the partition loop over a zero-byte blob
creates no descriptors), so the very first acquire fails with the
`MPOOL_EMPTY_LIST` (EmptyPool) error: reported capacity and actually
acquirable blocks diverge. -/
theorem C10_zero_block_size_divergence (n : Nat) (_hn : 1 ≤ n) :
    ∃ p0, init_mpool 0 (n : Int) = some (.MPOOL_SUCCESS, p0) ∧
      mpool_capacity (some p0) = (n : Int) ∧
      p0.block_list = [] ∧
      mpool_alloc p0 = some (none, .MPOOL_EMPTY_LIST, p0) := by
  refine ⟨zeroPool (n : Int), ?_, rfl, rfl, ?_⟩
  · unfold init_mpool partition_blob zeroPool
    simp [loop_offsets, run_partition]
  · exact mpool_alloc_nil _ rfl

/-- Witness for C10 at `capacity = 1`. -/
theorem C10_witness :
    (1:Nat) ≤ 1 ∧
    ∃ p0, init_mpool 0 ((1:Nat) : Int) = some (.MPOOL_SUCCESS, p0) ∧
      mpool_capacity (some p0) = ((1:Nat) : Int) ∧
      p0.block_list = [] ∧
      mpool_alloc p0 = some (none, .MPOOL_EMPTY_LIST, p0) :=
  ⟨le_rfl, C10_zero_block_size_divergence 1 le_rfl⟩
